import Mathlib

/-!
Verification development for the analytical core of the `ecco` interpretability
toolkit (`src/ecco/output.py`). Numeric tensor entries are modelled as exact
rationals; tensors are nested lists in the same axis order as the source.
Python slicing and indexing conventions (negative indices, `l[-k:]` tail
slices) are modelled by dedicated helpers. The tokenizer and the sklearn NMF
fitting routine are external collaborators and are not modelled; all
claim-relevant computations (projection, ranking, top-k selection, activation
reshaping, validation and error branches) are embedded directly from the
source.
-/

/-- Dot product of two vectors, matching a matrix-vector product row step. -/
def dot (xs ws : List ℚ) : ℚ := (List.zipWith (fun a b => a * b) xs ws).sum

/-- Projection of a hidden state to vocabulary logits via the lm_head matrix
(one row per vocabulary token): `logits = self.lm_head(hidden_state)` in
`output.py` lines 337 and 407. -/
def project (h : List ℚ) (lm_head : List (List ℚ)) : List ℚ :=
  lm_head.map (fun row => dot row h)

/-- Comparison of two vocabulary indices by their score, used to model
`torch.argsort` (ascending). -/
def rankLE (scores : List ℚ) : ℕ → ℕ → Prop :=
  fun i j => scores.getD i 0 ≤ scores.getD j 0

instance (scores : List ℚ) : DecidableRel (rankLE scores) :=
  fun i j => inferInstanceAs (Decidable (scores.getD i 0 ≤ scores.getD j 0))

instance (scores : List ℚ) : IsTotal ℕ (rankLE scores) :=
  ⟨fun a b => le_total (scores.getD a 0) (scores.getD b 0)⟩

instance (scores : List ℚ) : IsTrans ℕ (rankLE scores) :=
  ⟨fun _ _ _ hab hbc => le_trans hab hbc⟩

/-- Model of `torch.argsort(scores)`: the indices `0, ..., len-1` sorted so
that the scores are ascending. Tie order of `torch.argsort` is
implementation-defined; any deterministic sort is a faithful model. -/
def argsortAsc (scores : List ℚ) : List ℕ :=
  List.insertionSort (rankLE scores) (List.range scores.length)

/-- Rank of token `t` in a score vector, as computed identically in
`OutputSeq.rankings` (lines 409-417) and `OutputSeq.rankings_watch`
(lines 465-471): `sorted = torch.argsort(logits)`,
`r = torch.nonzero(sorted == token_id)`, `ranking = sorted.shape[0] - r`. -/
def rank_of (scores : List ℚ) (t : ℕ) : ℕ :=
  (argsortAsc scores).length - List.indexOf t (argsortAsc scores)

/-- Python slice `l[i:]`, including negative start indices. -/
def pySliceFrom (l : List α) (i : ℤ) : List α :=
  if 0 ≤ i then l.drop i.toNat else l.drop ((l.length : ℤ) + i).toNat

/-- Python indexing `l[i]` with a default for out-of-range accesses,
including negative indices counted from the end. -/
def pyGetD (l : List α) (i : ℤ) (d : α) : α :=
  if 0 ≤ i then l.getD i.toNat d
  else if i.natAbs ≤ l.length then l.getD (l.length - i.natAbs) d
  else d

/-- Python tail slice `l[-k:]`. For `k = 0` this is `l[0:]`, the whole
list. -/
def pyTailSlice (l : List α) (k : ℕ) : List α :=
  if k = 0 then l else l.drop (l.length - k)

/-- Top-k predicted tokens for one layer and position, from
`OutputSeq.layer_predictions` lines 334-347: project the hidden state,
apply softmax, `torch.argsort` the softmax values ascending, take the tail
slice `[-k:]` and reverse it, and pair each token id with its probability.
The softmax is modelled as a per-coordinate map `softmaxFn` applied to the
logits (for a fixed logit vector, softmax is `x / exp(x) divided by a
constant`, a strictly increasing per-coordinate function); the theorems
below hold for every such map. Tokens are identified by id; decoding to
text is done by the external tokenizer. -/
def layer_topk (h : List ℚ) (lm_head : List (List ℚ)) (softmaxFn : ℚ → ℚ)
    (k : ℕ) : List (ℕ × ℚ) :=
  let logits := project h lm_head
  let softmax := logits.map softmaxFn
  let sorted_softmax := argsortAsc softmax
  let top := (pyTailSlice sorted_softmax k).reverse
  top.map (fun tid => (tid, softmax.getD tid 0))

/-- Entry of a matrix given as nested lists, with default 0. -/
def mget (m : List (List ℕ)) (i j : ℕ) : ℕ := (m.getD i []).getD j 0

/-- Ranking matrix of `OutputSeq.rankings` (lines 392-422): rows are layers
(the embedding layer at index 0 is skipped), columns enumerate the slice
`level[n_input_tokens - 1:]`; each entry is the rank of the sampled token
`token_ids[n_input_tokens + j]` in the projection of the hidden state. -/
def rankings_matrix (hidden_states : List (List (List ℚ)))
    (lm_head : List (List ℚ)) (token_ids : List ℕ)
    (n_input_tokens : ℕ) : List (List ℕ) :=
  (hidden_states.drop 1).map (fun level =>
    let sl := pySliceFrom level ((n_input_tokens : ℤ) - 1)
    (List.range sl.length).map (fun j =>
      rank_of (project (sl.getD j []) lm_head)
        (token_ids.getD (n_input_tokens + j) 0)))

/-- Ranking matrix of `OutputSeq.rankings_watch` (lines 446-472): the
supplied position is first decremented unless it is -1; rows are layers
(embedding skipped), columns are the watched token ids; each entry is the
rank of the watched token in the projection of `level[position]`. -/
def rankings_watch_matrix (hidden_states : List (List (List ℚ)))
    (lm_head : List (List ℚ)) (watch : List ℕ)
    (position : ℤ) : List (List ℕ) :=
  let pos := if position ≠ -1 then position - 1 else position
  (hidden_states.drop 1).map (fun level =>
    watch.map (fun token_id =>
      rank_of (project (pyGetD level pos []) lm_head) token_id))

/-- Activation tensors, axes (batch, layer, neuron, position). -/
abbrev Tensor4 := List (List (List (List ℚ)))

/-- Activation tensors, axes (batch, neuron, position). -/
abbrev Tensor3 := List (List (List ℚ))

/-- Number of layers of an activation tensor: `activations.shape[1]`. -/
def shape1 (acts : Tensor4) : ℕ := (acts.headD []).length

/-- Python `sorted` on a list of naturals. -/
def sortNat (l : List ℕ) : List ℕ := List.insertionSort (fun a b => a ≤ b) l

/-- Row index assigned to layer id `x` by the Python dict comprehension
`layer_nums_to_row_ixs = ...` (line 648): with duplicate layer ids the later
entry overwrites, so the value is the index of the last occurrence. -/
def layerRowIx (nums : List ℕ) (x : ℕ) : ℕ :=
  nums.length - 1 - List.indexOf x nums.reverse

/-- Gather `activations[:, row_ix]` (line 672). -/
def gatherRow (acts : Tensor4) (r : ℕ) : Tensor3 :=
  acts.map (fun batchItem => batchItem.getD r [])

/-- Model of `np.concatenate(activation_rows, axis=1)` (line 676) on a
nonempty list of (batch, neuron, position) tensors of equal batch size. -/
def concatAxis1 (rows : List Tensor3) : Tensor3 :=
  (List.range (rows.headD []).length).map (fun b =>
    (rows.map (fun r3 => r3.getD b [])).flatten)

/-- Error branches of `NMF.reshape_activations`, with the values that the
corresponding `ValueError` message interpolates. `emptyConcat` models the
`np.concatenate` failure on an empty list of rows. -/
inductive ReshapeError where
  | emptyRange (f t : ℕ)
  | invertedRange (f t : ℕ)
  | unrecordedLayers (f t : Option ℕ) (available : List ℕ)
  | emptyConcat
deriving DecidableEq

/-- Shared tail of `NMF.reshape_activations` (lines 666-683): validate that
every requested layer id was recorded (else raise listing the sorted
available ids), map layer ids to storage rows, gather those rows,
concatenate along the neuron axis, swap axes 0 and 1, and flatten the
trailing (batch, position) axes. -/
def reshapeStep (acts : Tensor4) (nums : List ℕ) (fv tv : Option ℕ)
    (layer_nums : List ℕ) : Except ReshapeError (List (List ℚ)) :=
  if layer_nums.any (fun n => ! nums.dedup.contains n) then
    .error (.unrecordedLayers fv tv (sortNat nums.dedup))
  else
    let row_ixs := layer_nums.map (layerRowIx nums)
    let activation_rows := row_ixs.map (gatherRow acts)
    if activation_rows.isEmpty then .error .emptyConcat
    else
      let merged := concatAxis1 activation_rows
      .ok (merged.transpose.map List.flatten)

/-- Model of `NMF.reshape_activations` (lines 622-683). The tensor is 4-D by
type, so the four-dimension check of line 640 cannot fire. When either bound
of the layer range is supplied, a missing `from_layer` defaults to 0 and a
missing `to_layer` defaults to `activations.shape[0]` (the batch axis, line
653); an empty or inverted range raises; otherwise the resolved range is
`range(from_layer, to_layer)`. With no bounds, the sorted recorded layer ids
are used. -/
def reshape_activations (acts : Tensor4) (from_layer to_layer : Option ℕ)
    (collect_activations_layer_nums : Option (List ℕ)) :
    Except ReshapeError (List (List ℚ)) :=
  let nums := collect_activations_layer_nums.getD (List.range (shape1 acts))
  if from_layer.isSome || to_layer.isSome then
    let f := from_layer.getD 0
    let t := to_layer.getD acts.length
    if f = t then .error (.emptyRange f t)
    else if t < f then .error (.invertedRange f t)
    else reshapeStep acts nums (some f) (some t) (List.range' f (t - f))
  else reshapeStep acts nums none none (sortNat nums.dedup)

/-- Message of the empty-activations guard of `NMF.__init__` (lines
584-586), instructing the caller to enable activation collection. -/
def emptyActivationsMsg : String :=
  "No activation data found. Make sure activations=True was passed to ecco.from_pretrained()."

/-- Guard `if activations == []` of `NMF.__init__` (lines 584-586): the
model runner hands an empty list when activation collection was not
enabled, which is the only value on which the branch fires. -/
def nmf_activations_check (acts : Tensor4) : Except String Unit :=
  if acts = [] then .error emptyActivationsMsg else .ok ()

/-- Trailing axis length of the reshaped activation matrix:
`activations.shape[-1]`, the merged position-and-batch axis. -/
def shapeLast (m : List (List ℚ)) : ℕ := (m.headD []).length

/-- Component-count cap of `NMF.__init__` (lines 605-607):
`n_components = min([n_components, n_output_tokens])` where
`n_output_tokens = activations.shape[-1]`. -/
def nmf_n_components (requested : ℕ) (merged : List (List ℚ)) : ℕ :=
  min requested (shapeLast merged)

/-- Total number of tokens of one sequence: `tokens` is batched, dimensions
(batch, position), per the `OutputSeq.__init__` docstring (line 66). -/
def totalTokens (tokens : List (List String)) : ℕ := (tokens.headD []).length

/-- Validation of `OutputSeq.position` (lines 142-147): raises when
`position < n_input_tokens` or `position > len(self.tokens) - 1`, with the
two message-interpolated bounds as the error payload. Note that
`len(self.tokens)` is the number of batch items, not the number of
tokens. -/
def position_check (tokens : List (List String))
    (n_input_tokens position : ℕ) : Except (ℕ × ℤ) Unit :=
  if position < n_input_tokens ∨ (position : ℤ) > (tokens.length : ℤ) - 1 then
    .error (n_input_tokens, (tokens.length : ℤ) - 1)
  else .ok ()

/-- Per-component boundary duplication of `NMF.explore` (lines 713-715):
`np.concatenate([comp[:n_input_tokens], comp[n_input_tokens - 1:]])`. -/
def explore_transform (n_input_tokens : ℕ) (comp : List ℚ) : List ℚ :=
  comp.take n_input_tokens ++ pySliceFrom comp ((n_input_tokens : ℤ) - 1)

/-- Presentation transform of `NMF.explore` (lines 706-719): when the
sequence mixes input and generated tokens (its length differs from
`n_input_tokens`), every component is boundary-duplicated, otherwise the
components pass through unchanged. -/
def explore_factors (components : List (List ℚ))
    (seq_len n_input_tokens : ℕ) : List (List ℚ) :=
  if seq_len ≠ n_input_tokens then components.map (explore_transform n_input_tokens)
  else components

/-! ## Helper lemmas -/

lemma project_length (h : List ℚ) (W : List (List ℚ)) :
    (project h W).length = W.length := List.length_map _ _

lemma argsortAsc_perm (s : List ℚ) : List.Perm (argsortAsc s) (List.range s.length) :=
  List.perm_insertionSort _ _

lemma argsortAsc_length (s : List ℚ) : (argsortAsc s).length = s.length :=
  (argsortAsc_perm s).length_eq.trans (List.length_range _)

lemma argsortAsc_nodup (s : List ℚ) : (argsortAsc s).Nodup :=
  ((argsortAsc_perm s).nodup_iff).2 (List.nodup_range _)

lemma argsortAsc_mem {s : List ℚ} {t : ℕ} : t ∈ argsortAsc s ↔ t < s.length := by
  rw [(argsortAsc_perm s).mem_iff, List.mem_range]

lemma argsortAsc_sorted (s : List ℚ) : (argsortAsc s).Sorted (rankLE s) :=
  List.sorted_insertionSort _ _

/-! ## Claims -/

/-- C10: when exactly one bound of the layer range is supplied, the other is
defaulted rather than rejected: a missing from_layer defaults to 0, and a
missing to_layer defaults to the size of the first (batch) axis of the
activation tensor, after which the resolved range is the usual half-open
range over those defaults. -/
theorem claim_C10 (acts : Tensor4) (b : ℕ) (nums : Option (List ℕ)) :
    reshape_activations acts (some b) none nums
      = reshape_activations acts (some b) (some acts.length) nums ∧
    reshape_activations acts none (some b) nums
      = reshape_activations acts (some 0) (some b) nums :=
  ⟨rfl, rfl⟩

/-- C5: for every 4-D activation tensor, an explicit layer range with equal
bounds fails with the empty-range error, and a range with from_layer greater
than to_layer fails with the inverted-range error; neither is silently
accepted. -/
theorem claim_C5 (acts : Tensor4) (nums : Option (List ℕ)) (v f t : ℕ)
    (h : t < f) :
    reshape_activations acts (some v) (some v) nums
      = .error (.emptyRange v v) ∧
    reshape_activations acts (some f) (some t) nums
      = .error (.invertedRange f t) := by
  constructor
  · simp [reshape_activations]
  · simp [reshape_activations, Nat.ne_of_gt h, h]

/-- Witness for C5 at a concrete tensor and concrete ranges. -/
theorem claim_C5_witness :
    (0 < 1) ∧
    (reshape_activations [] (some 2) (some 2) none
        = .error (.emptyRange 2 2) ∧
      reshape_activations [] (some 1) (some 0) none
        = .error (.invertedRange 1 0)) :=
  ⟨by decide, claim_C5 [] none 2 1 0 (by decide)⟩

/-- C6: the component count used by NMF.__init__ is the minimum of the
requested count and the trailing axis length of the reshaped activation
matrix (the number of positions), so an oversized request is silently capped
with no error branch. -/
theorem claim_C6 (requested : ℕ) (merged : List (List ℚ))
    (h : shapeLast merged < requested) :
    nmf_n_components requested merged = min requested (shapeLast merged) ∧
    nmf_n_components requested merged = shapeLast merged := by
  refine ⟨rfl, ?_⟩
  simp [nmf_n_components]
  omega

/-- Witness for C6: requesting 10 components on a matrix with 2 positions
caps to 2. -/
theorem claim_C6_witness :
    (shapeLast [[1, 2], [3, 4]] < 10) ∧
    (nmf_n_components 10 [[1, 2], [3, 4]]
        = min 10 (shapeLast [[1, 2], [3, 4]]) ∧
      nmf_n_components 10 [[1, 2], [3, 4]] = shapeLast [[1, 2], [3, 4]]) :=
  ⟨by decide, claim_C6 10 [[1, 2], [3, 4]] (by decide)⟩

/-- C7: constructing the factorization with no supplied activation tensor
(the empty list the model runner hands over when activation collection was
not enabled) fails with the empty-activations error whose message tells the
caller to enable activation collection; any non-empty activation tensor
passes the guard. -/
theorem claim_C7 (acts : Tensor4) (h : acts ≠ []) :
    nmf_activations_check [] = .error emptyActivationsMsg ∧
    nmf_activations_check acts = .ok () := by
  refine ⟨rfl, ?_⟩
  simp [nmf_activations_check, h]

/-- Witness for C7 at a concrete one-entry activation tensor. -/
theorem claim_C7_witness :
    ([[[[1]]]] : Tensor4) ≠ [] ∧
    (nmf_activations_check [] = .error emptyActivationsMsg ∧
      nmf_activations_check [[[[1]]]] = .ok ()) :=
  ⟨by decide, claim_C7 [[[[1]]]] (by decide)⟩

/-- C8 (code bug): for the batched token list [["a","b","c"]] with
n_input_tokens = 1, position 1 lies inside the interval the claim declares
valid (n_input_tokens up to total_tokens - 1 = 2), yet the code raises,
because line 144 compares the position against len(self.tokens) - 1, the
number of batch items minus one (here 0), not the number of tokens; the
carried upper bound is therefore 0 instead of 2. -/
theorem claim_C8_bug :
    position_check [["a", "b", "c"]] 1 1 = .error (1, 0) ∧
    totalTokens [["a", "b", "c"]] = 3 ∧
    1 ≤ 1 ∧ (1 : ℕ) ≤ 3 - 1 :=
  ⟨rfl, rfl, by decide, by decide⟩

/-- C9: the NMF.explore presentation transform passes the components through
unchanged when the whole sequence is input tokens, and otherwise duplicates
each component at the boundary index n_input_tokens - 1, so the transformed
component is one entry longer and covers every token of the sequence. -/
theorem claim_C9 (components : List (List ℚ)) (seq_len n_input : ℕ)
    (comp : List ℚ) (h1 : 1 ≤ n_input) (h2 : n_input ≤ comp.length) :
    (seq_len = n_input → explore_factors components seq_len n_input = components) ∧
    (seq_len ≠ n_input →
      explore_factors components seq_len n_input
        = components.map (explore_transform n_input)) ∧
    (explore_transform n_input comp).length = comp.length + 1 ∧
    (explore_transform n_input comp).getD (n_input - 1) 0
      = comp.getD (n_input - 1) 0 ∧
    (explore_transform n_input comp).getD n_input 0
      = comp.getD (n_input - 1) 0 ∧
    (comp.length + 1 = seq_len →
      (explore_transform n_input comp).length = seq_len) := by
  have hsl : pySliceFrom comp ((n_input : ℤ) - 1) = comp.drop (n_input - 1) := by
    rw [pySliceFrom, if_pos (by omega)]
    congr 1
    omega
  have htk : (comp.take n_input).length = n_input := by
    rw [List.length_take]
    omega
  have hlen : (explore_transform n_input comp).length = comp.length + 1 := by
    rw [explore_transform, hsl, List.length_append, List.length_drop, htk]
    omega
  refine ⟨fun h => by simp [explore_factors, h], fun h => by simp [explore_factors, h],
    hlen, ?_, ?_, fun h => by omega⟩
  · rw [explore_transform, hsl, List.getD_append _ _ _ _ (by omega)]
    have h3 : n_input - 1 < comp.length := by omega
    rw [List.getD_eq_getElem _ _ (by omega), List.getD_eq_getElem _ _ h3,
      List.getElem_take]
  · rw [explore_transform, hsl, List.getD_append_right _ _ _ _ (by omega), htk]
    have h3 : n_input - 1 < comp.length := by omega
    have h4 : n_input - n_input < (comp.drop (n_input - 1)).length := by
      rw [List.length_drop]
      omega
    rw [List.getD_eq_getElem _ _ h4, List.getD_eq_getElem _ _ h3,
      List.getElem_drop]
    congr 1
    omega

/-- Witness for C9: one component [1, 2] over a sequence of 3 tokens with 2
input tokens becomes [1, 2, 2]. -/
theorem claim_C9_witness :
    (1 ≤ 2 ∧ 2 ≤ ([1, 2] : List ℚ).length) ∧
    ((3 = 2 → explore_factors [[1, 2]] 3 2 = [[1, 2]]) ∧
      (3 ≠ 2 → explore_factors [[1, 2]] 3 2 = [[1, 2]].map (explore_transform 2)) ∧
      (explore_transform 2 [1, 2]).length = ([1, 2] : List ℚ).length + 1 ∧
      (explore_transform 2 [1, 2]).getD (2 - 1) 0 = ([1, 2] : List ℚ).getD (2 - 1) 0 ∧
      (explore_transform 2 [1, 2]).getD 2 0 = ([1, 2] : List ℚ).getD (2 - 1) 0 ∧
      (([1, 2] : List ℚ).length + 1 = 3 → (explore_transform 2 [1, 2]).length = 3)) :=
  ⟨⟨by decide, by decide⟩, claim_C9 [[1, 2]] 3 2 [1, 2] (by decide) (by decide)⟩

lemma reshapeStep_no_error (nums : List ℕ) (layer_nums : List ℕ)
    (hall : ∀ n ∈ layer_nums, n ∈ nums) :
    (layer_nums.any (fun n => ! nums.dedup.contains n)) = false := by
  simp only [List.any_eq_false]
  intro n hn
  have hmem : n ∈ nums.dedup := (List.mem_dedup).2 (hall n hn)
  simp [hmem]

lemma reshapeStep_congr (acts : Tensor4) (nums : List ℕ)
    (fv tv fv' tv' : Option ℕ) (layer_nums : List ℕ)
    (hall : ∀ n ∈ layer_nums, n ∈ nums) :
    reshapeStep acts nums fv tv layer_nums
      = reshapeStep acts nums fv' tv' layer_nums := by
  have hc := reshapeStep_no_error nums layer_nums hall
  rw [reshapeStep, reshapeStep, hc]
  simp

/-- C3: on an activation tensor with a positive number of layers L and no
explicit collected-layer-id list, reshaping with the explicit range [0, L)
produces exactly the same result as reshaping with no layer restriction. -/
theorem claim_C3 (acts : Tensor4) (h : 0 < shape1 acts) :
    reshape_activations acts (some 0) (some (shape1 acts)) none
      = reshape_activations acts none none none := by
  have hd : (List.range (shape1 acts)).dedup = List.range (shape1 acts) :=
    List.Nodup.dedup (List.nodup_range _)
  have hs : sortNat (List.range (shape1 acts)) = List.range (shape1 acts) :=
    List.Sorted.insertionSort_eq (List.sorted_le_range _)
  rw [reshape_activations, reshape_activations]
  simp only [Option.isSome_some, Option.isSome_none, Bool.or_self, Bool.true_or,
    Option.getD_none, Option.getD_some, if_true, Bool.false_or, if_false,
    Bool.or_false]
  rw [if_neg (by omega), if_neg (by omega), hd, hs, Nat.sub_zero,
    ← List.range_eq_range']
  exact reshapeStep_congr _ _ _ _ _ _ _ (fun n hn => hn)

/-- Witness for C3 on a concrete (1, 2, 1, 2) tensor. -/
theorem claim_C3_witness :
    0 < shape1 [[[[1, 2]], [[3, 4]]]] ∧
    reshape_activations [[[[1, 2]], [[3, 4]]]] (some 0)
        (some (shape1 [[[[1, 2]], [[3, 4]]]])) none
      = reshape_activations [[[[1, 2]], [[3, 4]]]] none none none :=
  ⟨by decide, claim_C3 [[[[1, 2]], [[3, 4]]]] (by decide)⟩

/-- C4: whenever the resolved explicit layer range contains a layer id that
is not among the recorded collected layer ids, reshape fails with the
unrecorded-layers error whose payload lists the sorted available layer
ids. -/
theorem claim_C4 (acts : Tensor4) (nums : List ℕ) (f t x : ℕ)
    (hx : x ∈ List.range' f (t - f)) (hnx : x ∉ nums) :
    reshape_activations acts (some f) (some t) (some nums)
      = .error (.unrecordedLayers (some f) (some t) (sortNat nums.dedup)) := by
  have hft : f < t := by
    rw [List.mem_range'] at hx
    omega
  rw [reshape_activations]
  simp only [Option.isSome_some, Bool.or_self, if_true, Option.getD_some]
  rw [if_neg (by omega), if_neg (by omega), reshapeStep, if_pos]
  simp only [List.any_eq_true]
  refine ⟨x, hx, ?_⟩
  simp [List.mem_dedup, hnx]

/-- Activations tensor of shape (1, 6, 10, 7) from the spec scenario. -/
def scenarioTensor : Tensor4 :=
  List.replicate 1 (List.replicate 6 (List.replicate 10
    (List.replicate 7 (0 : ℚ))))

/-- Witness for C4: the spec scenario. With collected layer ids [0, 2, 4]
and the range from_layer = 0, to_layer = 2, the resolved id 1 is
unrecorded, so the error lists the available layers [0, 2, 4]. -/
theorem claim_C4_witness :
    ((1 ∈ List.range' 0 (2 - 0)) ∧ 1 ∉ ([0, 2, 4] : List ℕ)) ∧
    reshape_activations scenarioTensor (some 0) (some 2) (some [0, 2, 4])
      = .error (.unrecordedLayers (some 0) (some 2) [0, 2, 4]) := by
  refine ⟨⟨by decide, by decide⟩, ?_⟩
  have h := claim_C4 scenarioTensor [0, 2, 4] 0 2 1 (by decide) (by decide)
  have hs : sortNat (([0, 2, 4] : List ℕ).dedup) = [0, 2, 4] := by decide
  rw [h, hs]

lemma rankLE_le {s : List ℚ} {i j : ℕ} (h : rankLE s i j) :
    s.getD i 0 ≤ s.getD j 0 := h

lemma indexOf_argsortAsc_of_max (s : List ℚ) (t : ℕ) (ht : t < s.length)
    (hmax : ∀ j, j < s.length → j ≠ t → s.getD j 0 < s.getD t 0) :
    (argsortAsc s).indexOf t = s.length - 1 := by
  have hlen : (argsortAsc s).length = s.length := argsortAsc_length s
  have hmem : t ∈ argsortAsc s := argsortAsc_mem.2 ht
  have hp : (argsortAsc s).indexOf t < (argsortAsc s).length :=
    List.indexOf_lt_length.2 hmem
  by_contra hne
  have hlt : (argsortAsc s).indexOf t < (argsortAsc s).length - 1 := by omega
  have hb : (argsortAsc s).length - 1 < (argsortAsc s).length := by omega
  have hab : (⟨(argsortAsc s).indexOf t, hp⟩ : Fin (argsortAsc s).length)
      < ⟨(argsortAsc s).length - 1, hb⟩ := hlt
  have hrel := (argsortAsc_sorted s).rel_get_of_lt hab
  have hga : (argsortAsc s).get ⟨(argsortAsc s).indexOf t, hp⟩ = t :=
    List.indexOf_get hp
  rw [hga] at hrel
  have hjmem : (argsortAsc s).get ⟨(argsortAsc s).length - 1, hb⟩ ∈ argsortAsc s :=
    List.get_mem _ _ _
  have hjlt : (argsortAsc s).get ⟨(argsortAsc s).length - 1, hb⟩ < s.length :=
    argsortAsc_mem.1 hjmem
  have hjne : (argsortAsc s).get ⟨(argsortAsc s).length - 1, hb⟩ ≠ t := by
    intro heq
    rw [← hga] at heq
    have := ((argsortAsc_nodup s).get_inj_iff).1 heq
    rw [Fin.mk.injEq] at this
    omega
  exact absurd (rankLE_le hrel) (not_le.2 (hmax _ hjlt hjne))

lemma max_of_indexOf_argsortAsc (s : List ℚ) (t : ℕ) (ht : t < s.length)
    (hidx : (argsortAsc s).indexOf t = s.length - 1) :
    ∀ j, j < s.length → s.getD j 0 ≤ s.getD t 0 := by
  intro j hj
  have hlen : (argsortAsc s).length = s.length := argsortAsc_length s
  have hmemt : t ∈ argsortAsc s := argsortAsc_mem.2 ht
  have hmemj : j ∈ argsortAsc s := argsortAsc_mem.2 hj
  have hpt : (argsortAsc s).indexOf t < (argsortAsc s).length :=
    List.indexOf_lt_length.2 hmemt
  have hpj : (argsortAsc s).indexOf j < (argsortAsc s).length :=
    List.indexOf_lt_length.2 hmemj
  rcases Nat.lt_or_ge ((argsortAsc s).indexOf j) ((argsortAsc s).indexOf t)
    with hlt | hge
  · have hab : (⟨(argsortAsc s).indexOf j, hpj⟩ : Fin (argsortAsc s).length)
        < ⟨(argsortAsc s).indexOf t, hpt⟩ := hlt
    have hrel := (argsortAsc_sorted s).rel_get_of_lt hab
    rw [List.indexOf_get hpj, List.indexOf_get hpt] at hrel
    exact rankLE_le hrel
  · have heq : (argsortAsc s).indexOf j = (argsortAsc s).indexOf t := by omega
    have hjt : j = t := by
      have h1 := List.indexOf_get hpj
      have h2 := List.indexOf_get hpt
      rw [← h1, ← h2]
      congr 1
      rw [Fin.mk.injEq]
      exact heq
    rw [hjt]

lemma rank_of_eq_sub (s : List ℚ) (t : ℕ) :
    rank_of s t = s.length - List.indexOf t (argsortAsc s) := by
  rw [rank_of, argsortAsc_length]

lemma rank_of_bounds (s : List ℚ) (t : ℕ) (ht : t < s.length) :
    1 ≤ rank_of s t ∧ rank_of s t ≤ s.length := by
  have hlen : (argsortAsc s).length = s.length := argsortAsc_length s
  have hp : (argsortAsc s).indexOf t < (argsortAsc s).length :=
    List.indexOf_lt_length.2 (argsortAsc_mem.2 ht)
  rw [rank_of, hlen]
  omega

lemma rank_of_eq_one_of_max (s : List ℚ) (t : ℕ) (ht : t < s.length)
    (hmax : ∀ j, j < s.length → j ≠ t → s.getD j 0 < s.getD t 0) :
    rank_of s t = 1 := by
  rw [rank_of, argsortAsc_length, indexOf_argsortAsc_of_max s t ht hmax]
  omega

lemma max_of_rank_of_eq_one (s : List ℚ) (t : ℕ) (ht : t < s.length)
    (h1 : rank_of s t = 1) :
    ∀ j, j < s.length → s.getD j 0 ≤ s.getD t 0 := by
  have hlen : (argsortAsc s).length = s.length := argsortAsc_length s
  have hp : (argsortAsc s).indexOf t < (argsortAsc s).length :=
    List.indexOf_lt_length.2 (argsortAsc_mem.2 ht)
  rw [rank_of, hlen] at h1
  exact max_of_indexOf_argsortAsc s t ht (by omega)

lemma rankings_matrix_entry (hs : List (List (List ℚ))) (W : List (List ℚ))
    (tids : List ℕ) (n i j : ℕ)
    (hi : 1 + i < hs.length)
    (hj : j < (pySliceFrom (hs.getD (1 + i) []) ((n : ℤ) - 1)).length) :
    mget (rankings_matrix hs W tids n) i j
      = rank_of
          (project ((pySliceFrom (hs.getD (1 + i) []) ((n : ℤ) - 1)).getD j []) W)
          (tids.getD (n + j) 0) := by
  have hi' : i < (hs.drop 1).length := by
    rw [List.length_drop]
    omega
  have hgd : hs.getD (1 + i) [] = hs[1 + i] := List.getD_eq_getElem _ _ hi
  rw [hgd] at hj ⊢
  have hrow : (rankings_matrix hs W tids n).getD i []
      = (List.range (pySliceFrom hs[1 + i] ((n : ℤ) - 1)).length).map
          (fun j => rank_of
            (project ((pySliceFrom hs[1 + i] ((n : ℤ) - 1)).getD j []) W)
            (tids.getD (n + j) 0)) := by
    rw [rankings_matrix,
      List.getD_eq_getElem (List.map _ (hs.drop 1)) []
        (by rw [List.length_map]; exact hi'),
      List.getElem_map, List.getElem_drop]
  rw [mget, hrow,
    List.getD_eq_getElem (List.map _ (List.range _)) 0
      (by rw [List.length_map, List.length_range]; exact hj),
    List.getElem_map, List.getElem_range]

lemma rankings_watch_matrix_entry (hs : List (List (List ℚ)))
    (W : List (List ℚ)) (watch : List ℕ) (pos : ℤ) (i j : ℕ)
    (hi : 1 + i < hs.length) (hj : j < watch.length) :
    mget (rankings_watch_matrix hs W watch pos) i j
      = rank_of
          (project
            (pyGetD (hs.getD (1 + i) []) (if pos ≠ -1 then pos - 1 else pos) []) W)
          (watch.getD j 0) := by
  have hi' : i < (hs.drop 1).length := by
    rw [List.length_drop]
    omega
  have hgd : hs.getD (1 + i) [] = hs[1 + i] := List.getD_eq_getElem _ _ hi
  rw [hgd]
  have hrow : (rankings_watch_matrix hs W watch pos).getD i []
      = watch.map (fun token_id => rank_of
          (project (pyGetD hs[1 + i] (if pos ≠ -1 then pos - 1 else pos) []) W)
          token_id) := by
    rw [rankings_watch_matrix,
      List.getD_eq_getElem (List.map _ (hs.drop 1)) []
        (by rw [List.length_map]; exact hi'),
      List.getElem_map, List.getElem_drop]
  rw [mget, hrow,
    List.getD_eq_getElem (List.map _ watch) 0
      (by rw [List.length_map]; exact hj),
    List.getElem_map]
  congr 1
  exact (List.getD_eq_getElem _ _ hj).symm

/-- C1: the rank of a target token in the vocabulary is the vocabulary size
minus the index of the token in the ascending argsort of the projected
scores; the result is 1-based (between 1 and vocab_size); it is 1 whenever
the target is the strict arg-max, a rank of 1 forces the target score to be
maximal, and with a unique arg-max the rank is 1 exactly for that token.
The last two conjuncts show that every entry of the trajectory ranking
matrix and of the multi-token watch ranking matrix is this very rank
computation applied to the projected hidden state of that entry. -/
theorem claim_C1 (h : List ℚ) (W : List (List ℚ)) (t u : ℕ)
    (hidden_states : List (List (List ℚ))) (token_ids watch : List ℕ)
    (n_input i j jw : ℕ) (pos : ℤ)
    (ht : t < W.length)
    (hi : 1 + i < hidden_states.length)
    (hj : j < (pySliceFrom (hidden_states.getD (1 + i) [])
      ((n_input : ℤ) - 1)).length)
    (hjw : jw < watch.length) :
    rank_of (project h W) t
      = (project h W).length - List.indexOf t (argsortAsc (project h W)) ∧
    (1 ≤ rank_of (project h W) t ∧ rank_of (project h W) t ≤ (project h W).length) ∧
    ((∀ j2, j2 < (project h W).length → j2 ≠ t →
        (project h W).getD j2 0 < (project h W).getD t 0) →
      rank_of (project h W) t = 1) ∧
    (rank_of (project h W) t = 1 →
      ∀ j2, j2 < (project h W).length →
        (project h W).getD j2 0 ≤ (project h W).getD t 0) ∧
    (u < (project h W).length →
      (∀ j2, j2 < (project h W).length → j2 ≠ u →
        (project h W).getD j2 0 < (project h W).getD u 0) →
      (rank_of (project h W) t = 1 ↔ t = u)) ∧
    mget (rankings_matrix hidden_states W token_ids n_input) i j
      = rank_of
          (project ((pySliceFrom (hidden_states.getD (1 + i) [])
            ((n_input : ℤ) - 1)).getD j []) W)
          (token_ids.getD (n_input + j) 0) ∧
    mget (rankings_watch_matrix hidden_states W watch pos) i jw
      = rank_of
          (project (pyGetD (hidden_states.getD (1 + i) [])
            (if pos ≠ -1 then pos - 1 else pos) []) W)
          (watch.getD jw 0) := by
  have ht' : t < (project h W).length := by
    rw [project_length]
    exact ht
  refine ⟨rank_of_eq_sub _ _, rank_of_bounds _ _ ht',
    fun hmax => rank_of_eq_one_of_max _ _ ht' hmax,
    fun h1 j2 hj2 => max_of_rank_of_eq_one _ _ ht' h1 j2 hj2,
    fun hu hmax => ?_,
    rankings_matrix_entry hidden_states W token_ids n_input i j hi hj,
    rankings_watch_matrix_entry hidden_states W watch pos i jw hi hjw⟩
  constructor
  · intro h1
    by_contra hne
    have hle := max_of_rank_of_eq_one _ _ ht' h1 u hu
    have hlt := hmax t ht' hne
    exact absurd hle (not_le.2 hlt)
  · intro he
    subst he
    exact rank_of_eq_one_of_max _ _ hu hmax

/-- Witness for C1 at a two-token vocabulary with scores [1, 2], target
token 1, a two-layer hidden-state stack and a one-token watch list. -/
theorem claim_C1_witness :
    ((1 < ([[1], [2]] : List (List ℚ)).length) ∧
      (1 + 0 < ([[[1]], [[2]]] : List (List (List ℚ))).length) ∧
      (0 < (pySliceFrom (([[[1]], [[2]]] : List (List (List ℚ))).getD (1 + 0) [])
        ((1 : ℤ) - 1)).length) ∧
      (0 < ([0] : List ℕ).length)) ∧
    (rank_of (project [1] [[1], [2]]) 1
      = (project [1] [[1], [2]]).length
          - List.indexOf 1 (argsortAsc (project [1] [[1], [2]])) ∧
    (1 ≤ rank_of (project [1] [[1], [2]]) 1 ∧
      rank_of (project [1] [[1], [2]]) 1 ≤ (project [1] [[1], [2]]).length) ∧
    ((∀ j2, j2 < (project [1] [[1], [2]]).length → j2 ≠ 1 →
        (project [1] [[1], [2]]).getD j2 0 < (project [1] [[1], [2]]).getD 1 0) →
      rank_of (project [1] [[1], [2]]) 1 = 1) ∧
    (rank_of (project [1] [[1], [2]]) 1 = 1 →
      ∀ j2, j2 < (project [1] [[1], [2]]).length →
        (project [1] [[1], [2]]).getD j2 0 ≤ (project [1] [[1], [2]]).getD 1 0) ∧
    (1 < (project [1] [[1], [2]]).length →
      (∀ j2, j2 < (project [1] [[1], [2]]).length → j2 ≠ 1 →
        (project [1] [[1], [2]]).getD j2 0 < (project [1] [[1], [2]]).getD 1 0) →
      (rank_of (project [1] [[1], [2]]) 1 = 1 ↔ 1 = 1)) ∧
    mget (rankings_matrix [[[1]], [[2]]] [[1], [2]] [0, 1] 1) 0 0
      = rank_of
          (project ((pySliceFrom (([[[1]], [[2]]] : List (List (List ℚ))).getD (1 + 0) [])
            ((1 : ℤ) - 1)).getD 0 []) [[1], [2]])
          (([0, 1] : List ℕ).getD (1 + 0) 0) ∧
    mget (rankings_watch_matrix [[[1]], [[2]]] [[1], [2]] [0] (-1)) 0 0
      = rank_of
          (project (pyGetD (([[[1]], [[2]]] : List (List (List ℚ))).getD (1 + 0) [])
            (if (-1 : ℤ) ≠ -1 then (-1 : ℤ) - 1 else (-1 : ℤ)) []) [[1], [2]])
          (([0] : List ℕ).getD 0 0)) :=
  ⟨⟨by decide, by decide, by decide, by decide⟩,
    claim_C1 [1] [[1], [2]] 1 1 [[[1]], [[2]]] [0, 1] [0] 1 0 0 0 (-1)
      (by decide) (by decide) (by decide) (by decide)⟩

lemma layer_topk_eq (h : List ℚ) (W : List (List ℚ)) (f : ℚ → ℚ) (k : ℕ) :
    layer_topk h W f k
      = ((pyTailSlice (argsortAsc ((project h W).map f)) k).reverse).map
          (fun tid => (tid, ((project h W).map f).getD tid 0)) := rfl

/-- C2 counterexample: at the zero hidden state (empty hidden dimension, so
both vocabulary tokens score 0) with the identity as the strictly monotone
per-coordinate softmax model and k = 0, the Python tail slice [-0:] selects
the whole vocabulary, so the result has length 2, not min(0, 2) = 0, and
the two equal probabilities are not strictly descending. -/
theorem claim_C2_counterexample :
    StrictMono (fun q : ℚ => q) ∧
    layer_topk [] [[], []] (fun q : ℚ => q) 0 = [(1, 0), (0, 0)] ∧
    ¬ ((layer_topk [] [[], []] (fun q : ℚ => q) 0).length
        = min 0 ([[], []] : List (List ℚ)).length) ∧
    ¬ ((layer_topk [] [[], []] (fun q : ℚ => q) 0).map Prod.snd).Sorted
        (fun a b => b < a) := by
  refine ⟨fun a b hab => hab, by decide, by decide, by decide⟩

/-- C2 (amended): for every hidden state, head weights, per-coordinate
softmax model, and k greater than or equal to 1, the layer top-k result has
length min(k, vocab_size) and is weakly descending (non-increasing) by
probability. -/
theorem claim_C2_amended (h : List ℚ) (W : List (List ℚ)) (f : ℚ → ℚ)
    (k : ℕ) (hk : 1 ≤ k) :
    (layer_topk h W f k).length = min k W.length ∧
    ((layer_topk h W f k).map Prod.snd).Sorted (fun a b => b ≤ a) := by
  have hslen : ((project h W).map f).length = W.length := by
    rw [List.length_map, project_length]
  have halen : (argsortAsc ((project h W).map f)).length = W.length := by
    rw [argsortAsc_length, hslen]
  have hts : pyTailSlice (argsortAsc ((project h W).map f)) k
      = (argsortAsc ((project h W).map f)).drop
          ((argsortAsc ((project h W).map f)).length - k) := by
    rw [pyTailSlice, if_neg (by omega)]
  constructor
  · rw [layer_topk_eq, List.length_map, List.length_reverse, hts,
      List.length_drop, halen]
    omega
  · rw [layer_topk_eq, List.map_map]
    have hpd : ((argsortAsc ((project h W).map f)).drop
        ((argsortAsc ((project h W).map f)).length - k)).Pairwise
          (rankLE ((project h W).map f)) :=
      (argsortAsc_sorted _).sublist (List.drop_sublist _ _)
    rw [hts, List.Sorted, List.pairwise_map, List.pairwise_reverse]
    exact hpd

/-- Witness for C2 (amended) at k = 1 on a two-token vocabulary. -/
theorem claim_C2_amended_witness :
    1 ≤ 1 ∧
    ((layer_topk [] [[], []] (fun q : ℚ => q) 1).length
        = min 1 ([[], []] : List (List ℚ)).length ∧
      ((layer_topk [] [[], []] (fun q : ℚ => q) 1).map Prod.snd).Sorted
        (fun a b => b ≤ a)) :=
  ⟨by decide, claim_C2_amended [] [[], []] (fun q : ℚ => q) 1 (by decide)⟩
